import Mathlib

/-!
Verification of the FerrumSearch engine (`src/main.rs`).

A shallow embedding of the indexing and retrieval engine in `src/main.rs`,
with theorems settling the specification's claims about it.

Modelling conventions, fixed once for the whole development:

* Rust `String` values are `List Char` (`Str` below).  Character
  classification (`char::is_alphanumeric`, `char::is_whitespace`) and
  lowercasing are modelled by Lean's `Char.isAlphanum`,
  `Char.isWhitespace` and `Char.toLower`.  These agree with Rust on
  ASCII but not beyond: Rust's predicates are Unicode-aware and
  `str::to_lowercase` can map one scalar to several.  This narrowing is a
  declared model boundary: every concrete input below is ASCII, where the
  two sides agree, and no theorem's verdict rests on how a non-ASCII
  character is classified — in particular the tokenizer claim (C4)
  compares two pipelines that share the model's predicates, so their
  relation is independent of the classification.  Rust byte lengths
  (`str::len`) are modelled by summing the UTF-8 size of each scalar
  value (`byteLen`), and byte slicing (`&s[a..b]`) by byte-counting
  functions that fail (`none`, a Rust panic) off a character boundary.
* `HashMap` values are association lists without duplicate keys; `insert`
  replaces in place, `remove` filters the key out.  A `HashMap`'s
  iteration order is unspecified in Rust; wherever a theorem depends on it
  (the `scores` map collected before sorting) the order is an explicit
  parameter ranging over permutations of the canonical insertion-order
  list.
* `f32` scores are modelled as exact rationals.  `f32::ln` has no exact
  rational counterpart; every definition that needs it takes an arbitrary
  function `flog : ℚ → ℚ` as a parameter, so everything proved holds for
  every choice of logarithm.  None of the claims below depends on the
  numeric value of a score.  `flog0` is the stand-in used at concrete
  inputs.
* `usize` arithmetic follows release-profile Rust: two's-complement
  wrapping modulo `2^64` (`W64`).  Division by zero aborts in every Rust
  profile, and a byte slice off a character boundary panics; both are
  modelled by `Option`, `none` standing for the abort.
* `SystemTime` is outside the model: `query_time_ms` is always reported
  as `0`, and no claim mentions it.
* `Uuid::new_v4()` draws a fresh random identifier; the draw is an
  explicit `fresh : Str` argument to `add_document`, used only when the
  incoming id is empty.
-/

namespace FerrumSearch

/-- Rust `String`, as the list of its Unicode scalar values. -/
abbrev Str := List Char

/-- The number of bytes of a scalar value's UTF-8 encoding
(Rust `char::len_utf8`). -/
def utf8Len (c : Char) : Nat :=
  if c.val ≤ 0x7F then 1 else if c.val ≤ 0x7FF then 2
  else if c.val ≤ 0xFFFF then 3 else 4

/-- Rust `str::len`: the byte length of the UTF-8 encoding. -/
def byteLen (s : Str) : Nat := (s.map utf8Len).sum

/-- `usize` modulus: values wrap modulo `2^64`. -/
def W64 : Nat := 18446744073709551616

/-- `HashMap::get`. -/
def lookupA {β : Type} : List (Str × β) → Str → Option β
  | [], _ => none
  | (k', v) :: t, k => if k' = k then some v else lookupA t k

/-- `HashMap::contains_key`. -/
def containsA {β : Type} (m : List (Str × β)) (k : Str) : Bool :=
  (lookupA m k).isSome

/-- `HashMap::insert`: replace the value at an existing key in place,
otherwise add the binding. -/
def insertA {β : Type} : List (Str × β) → Str → β → List (Str × β)
  | [], k, v => [(k, v)]
  | (k', v') :: t, k, v =>
      if k' = k then (k, v) :: t else (k', v') :: insertA t k v

/-- `HashMap::remove` (the engine never reads the returned value). -/
def removeA {β : Type} (m : List (Str × β)) (k : Str) : List (Str × β) :=
  m.filter (fun p => p.1 ≠ k)

-- ==================== Tokenizer ====================

/-- `str::split_whitespace` worker: `acc` holds the current word reversed. -/
def splitWsGo : Str → Str → List Str
  | [], acc => if acc = [] then [] else [acc.reverse]
  | c :: cs, acc =>
      if c.isWhitespace then
        (if acc = [] then splitWsGo cs [] else acc.reverse :: splitWsGo cs [])
      else splitWsGo cs (c :: acc)

/-- `str::split_whitespace`: split on runs of whitespace, no empty pieces. -/
def splitWs (s : Str) : List Str := splitWsGo s []

/-- `FerrumSearch::tokenize` (src/main.rs:344-353): lowercase, drop every
character that is neither alphanumeric nor whitespace, split on
whitespace, keep words whose byte length (`str::len`) exceeds 2.  The
character predicates and `toLower` are the model's ASCII-agreeing stand-ins
for Rust's Unicode-aware `char::is_alphanumeric`, `char::is_whitespace`
and `str::to_lowercase` (see the header); the pipeline's SHAPE — which is
what the tokenizer claims are about — is the source's. -/
def tokenize (text : Str) : List Str :=
  (splitWs ((text.map Char.toLower).filter
      (fun c => c.isAlphanum || c.isWhitespace))).filter
    (fun w => decide (2 < byteLen w))

-- ==================== Edit distance ====================

/-- One row of the Levenshtein table (src/main.rs:389-397): given `ca` (the
current character of `a`), the remaining characters of `b`, the tail of the
previous row `dp[i-1][j..]`, the diagonal `dp[i-1][j-1]` and the value to the
left `dp[i][j-1]`, produce `dp[i][j..]`. -/
def levGo (ca : Char) : List Char → List Nat → Nat → Nat → List Nat
  | [], _, _, _ => []
  | _ :: _, [], _, _ => []
  | cb :: bs, up :: prevRest, diag, left =>
      let cost := if ca = cb then 0 else 1
      let cur := min (min (up + 1) (left + 1)) (diag + cost)
      cur :: levGo ca bs prevRest up cur

/-- `FerrumSearch::edit_distance` (src/main.rs:377-400): the dynamic
program, row by row; `dp[i][0] = i`, `dp[0][j] = j`. -/
def editDistance (a b : Str) : Nat :=
  let row0 : List Nat := List.range (b.length + 1)
  let final := a.foldl
    (fun (st : List Nat × Nat) ca =>
      match st.1 with
      | [] => ([], st.2 + 1)
      | p0 :: prevRest => ((st.2 + 1) :: levGo ca b prevRest p0 (st.2 + 1), st.2 + 1))
    (row0, 0)
  (final.1.getLast?).getD 0

-- ==================== Fuzzy token expansion ====================

/-- Byte-lexicographic order on Rust strings; on scalar values this equals
code-point order, since UTF-8 preserves it. -/
def lexLt : Str → Str → Bool
  | [], [] => false
  | [], _ :: _ => true
  | _ :: _, [] => false
  | a :: as_, b :: bs => if a < b then true else if a = b then lexLt as_ bs else false

/-- `Vec::sort` on strings: a stable sort is uniquely determined by its
comparator, so insertion sort stands for the library sort. -/
def insertLex (x : Str) : List Str → List Str
  | [] => [x]
  | y :: ys => if lexLt y x then y :: insertLex x ys else x :: y :: ys

/-- `Vec::sort` for `Vec<String>` (ascending). -/
def sortStrings (l : List Str) : List Str := l.foldr insertLex []

/-- `Vec::dedup`: drop consecutive duplicates. -/
def dedupAdj : List Str → List Str
  | [] => []
  | [x] => [x]
  | x :: y :: t => if x = y then dedupAdj (y :: t) else x :: dedupAdj (y :: t)

/-- `FerrumSearch::fuzzy_search_token` (src/main.rs:355-375): exact postings
first, then the postings of every other vocabulary word at edit distance
at most 1, sorted and deduplicated. -/
def fuzzySearchToken (index : List (Str × List Str)) (token : Str) : List Str :=
  let exact := (lookupA index token).getD []
  let found := index.foldl
    (fun acc p =>
      if p.1 ≠ token ∧ editDistance token p.1 ≤ 1 then acc ++ p.2 else acc)
    exact
  dedupAdj (sortStrings found)

-- ==================== Core data structures ====================

/-- `Document` (src/main.rs:9-16). `metadata` is a string-keyed map. -/
structure Document where
  id : Str
  title : Str
  content : Str
  metadata : List (Str × Str)
  timestamp : Nat
deriving DecidableEq, Repr

/-- `SearchResult` (src/main.rs:18-26), scores as exact rationals. -/
structure SearchResult where
  id : Str
  title : Str
  content : Str
  score : ℚ
  highlights : List Str
  metadata : List (Str × Str)
deriving DecidableEq, Repr

/-- `SearchResponse` (src/main.rs:28-36). `query_time_ms` is wall-clock
time in the source and is always `0` in the model. -/
structure SearchResponse where
  results : List SearchResult
  total_hits : Nat
  query_time_ms : Nat
  page : Nat
  per_page : Nat
  total_pages : Nat
deriving DecidableEq, Repr

/-- `SearchQuery` (src/main.rs:48-57). -/
structure SearchQuery where
  query : Str
  fuzzy : Bool
  page : Option Nat
  per_page : Option Nat
  filters : Option (List (Str × Str))
  sort_by : Option Str
  highlight : Bool
deriving DecidableEq, Repr

/-- The five tables of `FerrumSearch` (src/main.rs:75-81).  The `RwLock`s
only guard concurrent access; a single operation's effect is the pure state
transformation embedded here. -/
structure Engine where
  documents : List (Str × Document)
  inverted_index : List (Str × List Str)
  word_frequencies : List (Str × List (Str × ℚ))
  document_lengths : List (Str × Nat)
  total_documents : Nat
deriving DecidableEq, Repr

/-- `FerrumSearch::new` (src/main.rs:84-92). -/
def newEngine : Engine := ⟨[], [], [], [], 0⟩

-- ==================== Indexing operations ====================

/-- The posting purge inside `remove_document_from_index`
(src/main.rs:177-191): every occurrence of `docId` leaves every posting
list, and a token whose list became empty leaves the index.  A list that
never contained `docId` is kept untouched, even when empty. -/
def purgeIndex (index : List (Str × List Str)) (docId : Str) :
    List (Str × List Str) :=
  index.filterMap (fun p =>
    if docId ∈ p.2 then
      (let l := p.2.filter (fun x => decide (x ≠ docId))
       if l = [] then none else some (p.1, l))
    else some p)

/-- `FerrumSearch::remove_document_from_index` (src/main.rs:169-192):
drop the term-frequency row, purge the postings.  `document_lengths` is
not touched. -/
def removeDocumentFromIndex (docId : Str)
    (index : List (Str × List Str))
    (frequencies : List (Str × List (Str × ℚ))) :
    List (Str × List Str) × List (Str × List (Str × ℚ)) :=
  (purgeIndex index docId, removeA frequencies docId)

/-- `index.entry(token).or_insert_with(Vec::new).push(doc_id)`
(src/main.rs:131-133). -/
def pushPosting : List (Str × List Str) → Str → Str → List (Str × List Str)
  | [], token, docId => [(token, [docId])]
  | (k, l) :: t, token, docId =>
      if k = token then (k, l ++ [docId]) :: t
      else (k, l) :: pushPosting t token docId

/-- `*word_count.entry(token).or_insert(0) += 1` (src/main.rs:129),
accumulated over the token list in first-occurrence order. -/
def bumpCount : List (Str × Nat) → Str → List (Str × Nat)
  | [], token => [(token, 1)]
  | (k, c) :: t, token =>
      if k = token then (k, c + 1) :: t else (k, c) :: bumpCount t token

/-- The `word_count` map after the indexing loop (src/main.rs:127-134). -/
def wordCounts (tokens : List Str) : List (Str × Nat) :=
  tokens.foldl bumpCount []

/-- `FerrumSearch::add_document` (src/main.rs:96-149).  `fresh` is the
`Uuid::new_v4()` draw, used only when the incoming id is empty. -/
def addDocument (fresh : Str) (e : Engine) (document : Document) : Engine :=
  let document :=
    if document.id = [] then { document with id := fresh } else document
  let docId := document.id
  let text := document.title ++ ' ' :: document.content
  let tokens := tokenize text
  -- store the document; a new id bumps `total_documents` (usize, wrapping)
  let isNew := ¬ containsA e.documents docId
  let documents := insertA e.documents docId document
  let total :=
    if isNew then (e.total_documents + 1) % W64 else e.total_documents
  -- remove old entries if updating, then add the new ones
  let (index1, frequencies1) :=
    removeDocumentFromIndex docId e.inverted_index e.word_frequencies
  let index2 := tokens.foldl (fun ix token => pushPosting ix token docId) index1
  let docLength := tokens.length
  let lengths := insertA e.document_lengths docId docLength
  let row := (wordCounts tokens).map
    (fun p => (p.1, (p.2 : ℚ) / (docLength : ℚ)))
  let frequencies2 := insertA frequencies1 docId row
  ⟨documents, index2, frequencies2, lengths, total⟩

/-- `FerrumSearch::remove_document` (src/main.rs:151-167): drop the
document (decrementing `total_documents`, saturating, when it was
present), then purge index and frequencies.  The source never removes the
`document_lengths` entry. -/
def removeDocument (e : Engine) (docId : Str) : Engine :=
  let present := containsA e.documents docId
  let documents := removeA e.documents docId
  let total := if present then e.total_documents - 1 else e.total_documents
  let (index, frequencies) :=
    removeDocumentFromIndex docId e.inverted_index e.word_frequencies
  ⟨documents, index, frequencies, e.document_lengths, total⟩

/-- `FerrumSearch::bulk_import` (src/main.rs:452-463): each element is
added (always `Ok`, so every one counts), paired with its uuid draw. -/
def bulkImport (e : Engine) (docs : List (Str × Document)) : Engine × Nat :=
  docs.foldl (fun acc fd => (addDocument fd.1 acc.1 fd.2, acc.2 + 1)) (e, 0)

/-- `FerrumSearch::clear_index` (src/main.rs:465-472). -/
def clearIndex (_e : Engine) : Engine := ⟨[], [], [], [], 0⟩

-- ==================== Search pipeline ====================

/-- `*scores.entry(doc_id).or_insert(0.0) += score` (src/main.rs:243):
first insertion appends, later ones accumulate in place. -/
def addScore : List (Str × ℚ) → Str → ℚ → List (Str × ℚ)
  | [], docId, v => [(docId, 0 + v)]
  | (k, s) :: t, docId, v =>
      if k = docId then (k, s + v) :: t else (k, s) :: addScore t docId v

/-- The BM25 scoring loop of `search` (src/main.rs:217-247), producing the
`scores` map as a list in first-insertion order.  `flog` stands for
`f32::ln`.  A document matched only through a fuzzy neighbour has no
`tf` entry under the query token itself, so the `doc_freqs.get(token)`
lookup fails and nothing is accumulated for it. -/
def scoresList (flog : ℚ → ℚ) (e : Engine) (tokens : List Str)
    (fuzzy : Bool) : List (Str × ℚ) :=
  tokens.foldl (fun scores token =>
    let matchingDocs :=
      if fuzzy then fuzzySearchToken e.inverted_index token
      else (lookupA e.inverted_index token).getD []
    let df := matchingDocs.length
    if df = 0 then scores
    else
      let idf := flog (((e.total_documents : ℚ) - (df : ℚ) + 1/2) / ((df : ℚ) + 1/2))
      matchingDocs.foldl (fun sc docId =>
        match lookupA e.word_frequencies docId with
        | none => sc
        | some docFreqs =>
          match lookupA docFreqs token with
          | none => sc
          | some tf =>
            let k1 : ℚ := 3/2
            let b : ℚ := 3/4
            let docLen := (lookupA e.document_lengths docId).getD 1
            let avgDocLen : ℚ := 100
            let bm25tf := (tf * (k1 + 1)) /
              (tf + k1 * (1 - b + b * ((docLen : ℚ) / avgDocLen)))
            addScore sc docId (idf * bm25tf)) scores) []

/-- The metadata filter predicate of `search` (src/main.rs:250-260). -/
def passesFilters (docs : List (Str × Document)) (filters : List (Str × Str))
    (docId : Str) : Bool :=
  match lookupA docs docId with
  | some doc => filters.all (fun kv => lookupA doc.metadata kv.1 == some kv.2)
  | none => false

/-- The `scores` map after the optional `retain` (src/main.rs:249-260), in
canonical first-insertion order; a real run iterates it in an order the
`HashMap`'s per-instance random seed decides, i.e. in some permutation of
this list. -/
def filteredScores (flog : ℚ → ℚ) (e : Engine) (q : SearchQuery) :
    List (Str × ℚ) :=
  let tokens := tokenize q.query
  let sc := scoresList flog e tokens q.fuzzy
  match q.filters with
  | none => sc
  | some fs => sc.filter (fun p => passesFilters e.documents fs p.1)

/-- `sort_by(|a, b| b.1.partial_cmp(&a.1).unwrap_or(Equal))`
(src/main.rs:264): stable sort, score descending.  A stable sort is
uniquely determined by its comparator, so insertion sort stands for the
library sort; an incoming element is placed before the first element not
strictly above it. -/
def insertDesc (x : Str × ℚ) : List (Str × ℚ) → List (Str × ℚ)
  | [] => [x]
  | y :: ys => if x.2 < y.2 then y :: insertDesc x ys else x :: y :: ys

/-- The sorted result vector (src/main.rs:263-264). -/
def sortDesc (l : List (Str × ℚ)) : List (Str × ℚ) := l.foldr insertDesc []

/-- `&content[..budget]` byte slicing: `some` of the prefix holding exactly
`budget` bytes, `none` (a Rust panic) when `budget` is not on a character
boundary or exceeds the string. -/
def takeBytes : Nat → Str → Option Str
  | 0, _ => some []
  | _ + 1, [] => none
  | b + 1, c :: cs =>
      if utf8Len c ≤ b + 1 then (takeBytes (b + 1 - utf8Len c) cs).map (c :: ·)
      else none

/-- `FerrumSearch::truncate_content` (src/main.rs:427-433): the content
itself when it holds at most `maxLen` bytes, otherwise its first `maxLen`
bytes with `...` appended — which panics (`none`) when byte `maxLen` falls
inside a multi-byte character. -/
def truncateContent (content : Str) (maxLen : Nat) : Option Str :=
  if byteLen content ≤ maxLen then some content
  else (takeBytes maxLen content).map (· ++ ['.', '.', '.'])

/-- `&s[a..]` byte slicing: `some` of the suffix after the first `a`
bytes, `none` (a Rust panic) when `a` is not on a character boundary or
exceeds the string. -/
def dropBytes : Nat → Str → Option Str
  | 0, s => some s
  | _ + 1, [] => none
  | b + 1, c :: cs =>
      if utf8Len c ≤ b + 1 then dropBytes (b + 1 - utf8Len c) cs else none

/-- `&s[a..b]` byte slicing for `a ≤ b` (the only shape the highlighter
produces): `none` — a Rust panic — when either end misses a character
boundary or `b` exceeds the string. -/
def sliceBytes (s : Str) (a b : Nat) : Option Str :=
  (dropBytes a s).bind (fun t => takeBytes (b - a) t)

/-- `str::find` (src/main.rs:407): the BYTE offset of the first
occurrence.  Matches start on character boundaries, so scanning by
character and summing UTF-8 sizes yields Rust's byte offset. -/
def findSub (hay needle : Str) : Option Nat :=
  match hay with
  | [] => if needle = [] then some 0 else none
  | c :: t => if needle.isPrefixOf (c :: t) then some 0
      else (findSub t needle).map (· + utf8Len c)

/-- `FerrumSearch::generate_highlights` (src/main.rs:402-425): for each
query token, find its first case-insensitive byte offset and slice a
context window of 50 bytes on each side out of `full_text` — a byte
slice that PANICS (`none`) when a window end splits a multi-byte
character.  The panic aborts the whole loop, before the final
`truncate(3)`.  Offsets are found in the per-character-lowercased text;
the model's `Char.toLower` preserves byte sizes, so they are offsets
into the original text as the source assumes (Rust's `to_lowercase` can
shift offsets on exotic scalars — outside the model boundary). -/
def generateHighlights (doc : Document) (tokens : List Str) :
    Option (List Str) :=
  let fullText := doc.title ++ ' ' :: doc.content
  let collected := tokens.foldl (fun acc token =>
    acc.bind (fun hs =>
      match findSub (fullText.map Char.toLower) (token.map Char.toLower) with
      | none => some hs
      | some start =>
        let contextStart := start - 50
        let contextEnd := min (start + byteLen token + 50) (byteLen fullText)
        (sliceBytes fullText contextStart contextEnd).map (fun h =>
          let h := if 0 < contextStart then '.' :: '.' :: '.' :: h else h
          let h :=
            if contextEnd < byteLen fullText then h ++ ['.', '.', '.'] else h
          hs ++ [h]))) (some [])
  collected.map (fun hs => hs.take 3)

/-- The projection loop of `search` (src/main.rs:275-293) over the paged
slice: a doc id absent from the document table is skipped; a highlight
window or a content truncation off a character boundary aborts the whole
call (`none`).  As in the source, highlights are generated before the
content is truncated. -/
def buildResults (e : Engine) (q : SearchQuery) (tokens : List Str) :
    List (Str × ℚ) → Option (List SearchResult)
  | [] => some []
  | (docId, score) :: rest =>
    match lookupA e.documents docId with
    | none => buildResults e q tokens rest
    | some doc =>
      match (if q.highlight then generateHighlights doc tokens
             else some []) with
      | none => none
      | some highlights =>
        match truncateContent doc.content 200 with
        | none => none
        | some content =>
          (buildResults e q tokens rest).map
            (⟨doc.id, doc.title, content, score, highlights,
              doc.metadata⟩ :: ·)

/-- `FerrumSearch::search` (src/main.rs:196-307) given the order `ord` in
which the post-filter `scores` map is iterated: the real `HashMap`
iteration yields some permutation of `filteredScores`.  `usize` arithmetic
wraps modulo `2^64`; the `total_pages` division by a zero `per_page`
aborts (`none`). -/
def searchOut (e : Engine) (q : SearchQuery)
    (ord : List (Str × ℚ)) : Option SearchResponse :=
  let tokens := tokenize q.query
  if tokens = [] then
    some ⟨[], 0, 0, q.page.getD 1, q.per_page.getD 10, 0⟩
  else
    let sortedResults := sortDesc ord
    let totalHits := sortedResults.length
    let page := q.page.getD 1
    let perPage := q.per_page.getD 10
    if perPage = 0 then none
    else
      let totalPages := ((totalHits + perPage + (W64 - 1)) % W64) / perPage
      let start := (((page + (W64 - 1)) % W64) * perPage) % W64
      let stop := min ((start + perPage) % W64) totalHits
      let takeLen := (stop + (W64 - start)) % W64
      (buildResults e q tokens ((sortedResults.drop start).take takeLen)).map
        (fun results => ⟨results, totalHits, 0, page, perPage, totalPages⟩)

/-- `FerrumSearch::search` run with the canonical iteration order. -/
def search (flog : ℚ → ℚ) (e : Engine) (q : SearchQuery) :
    Option SearchResponse :=
  searchOut e q (filteredScores flog e q)

/-- Stand-in for `f32::ln` at concrete inputs; no claim below depends on
the value a score takes, so any fixed function serves. -/
def flog0 : ℚ → ℚ := fun _ => 0

/-- Every stored document of `e` projects cleanly under query `q`: when
highlighting is requested its highlight windows slice on character
boundaries, and its content truncates on one.  These are the two partial
byte slices of the projection loop, so `search` can only abort (beyond
the `per_page = 0` division) on a document violating this. -/
def ProjectsCleanly (e : Engine) (q : SearchQuery) : Prop :=
  ∀ p ∈ e.documents,
    (q.highlight = true →
      (generateHighlights (Prod.snd p) (tokenize q.query)).isSome = true) ∧
    (truncateContent (Prod.snd p).content 200).isSome = true

-- ==================== Spec-side tokenizer variants ====================

/-- The spec's primary tokenizer wording (§4.A): step (2) REPLACES each
character that is neither alphanumeric nor whitespace with a single
space.  Defined for comparison with `tokenize`; every other step is
taken exactly as the code performs it (in particular token length is
measured as `str::len` does, in UTF-8 bytes), so the two pipelines
differ in step (2) alone. -/
def tokenizeSpecReplace (text : Str) : List Str :=
  (splitWs ((text.map Char.toLower).map
      (fun c => if c.isAlphanum || c.isWhitespace then c else ' '))).filter
    (fun w => decide (2 < byteLen w))

/-- The spec's parenthetical tokenizer wording (§4.A): step (2) retains
alphanumerics and whitespace and DROPS all other characters; token
length measured as `str::len` does, in UTF-8 bytes. -/
def tokenizeSpecDrop (text : Str) : List Str :=
  (splitWs ((text.map Char.toLower).filter
      (fun c => c.isAlphanum || c.isWhitespace))).filter
    (fun w => decide (2 < byteLen w))

-- ==================== Concrete inputs for the claims ====================

/-- The document of the spec's fuzzy scenario (§8) and of the source's own
`test_fuzzy_search` (src/main.rs:514-536). -/
def fuzzyDoc : Document :=
  ⟨"1".toList, "Programming".toList, "Advanced programming concepts".toList,
   [], 0⟩

/-- A uuid draw that no scenario consumes (every concrete document below
carries a non-empty id unless said otherwise). -/
def uuidUnused : Str := "00000000-0000-4000-8000-000000000000".toList

/-- The engine after adding `fuzzyDoc` to a fresh engine. -/
def fuzzyEngine : Engine := addDocument uuidUnused newEngine fuzzyDoc

/-- Query `"programing"`, fuzzy = true, everything else defaulted
(src/main.rs:528-532 together with `SearchQuery::default`). -/
def fuzzyQuery : SearchQuery :=
  ⟨"programing".toList, true, some 1, some 10, none, none, true⟩

/-- A small two-token document used for the add/remove scenarios. -/
def helloDoc : Document :=
  ⟨"1".toList, "hello".toList, "world".toList, [], 0⟩

/-- The engine after `add_document(helloDoc)` then `remove_document("1")`
on a fresh engine. -/
def addRemoveEngine : Engine :=
  removeDocument (addDocument uuidUnused newEngine helloDoc) "1".toList

/-- A document whose id is the empty string, so `add_document` draws a
fresh uuid for it on every call. -/
def emptyIdDoc : Document :=
  ⟨[], "hello".toList, "world program".toList, [], 0⟩

/-- First uuid draw for `emptyIdDoc`. -/
def uuidA : Str := "3aa8f1c2-5b77-4c21-9e04-1d2b3c4d5e6f".toList

/-- Second uuid draw for `emptyIdDoc`. -/
def uuidB : Str := "7c0e2d94-81a5-4f3b-b6c8-9a0b1c2d3e4f".toList

/-- Two structurally identical documents under distinct ids: their scores
for any query are computed by the same expression, hence tie. -/
def tieDocA : Document := ⟨"a".toList, "hello".toList, "world".toList, [], 0⟩

/-- See `tieDocA`. -/
def tieDocB : Document := ⟨"b".toList, "hello".toList, "world".toList, [], 0⟩

/-- Engine holding the two tied documents. -/
def tieEngine : Engine :=
  addDocument uuidUnused (addDocument uuidUnused newEngine tieDocA) tieDocB

/-- Query `"hello"` matching both tied documents (highlighting off keeps
the projected results small). -/
def tieQuery : SearchQuery :=
  ⟨"hello".toList, false, some 1, some 10, none, none, false⟩

/-- A query with `per_page = Some(0)` and a non-empty token list. -/
def zeroPerPageQuery : SearchQuery :=
  ⟨"programming".toList, false, some 1, some 0, none, none, true⟩

/-- A query with `page = Some(0)` and `per_page = Some(0)`. -/
def zeroZeroQuery : SearchQuery :=
  ⟨"hello".toList, false, some 0, some 0, none, none, true⟩

/-- A query with `page = Some(0)` and a non-zero `per_page`. -/
def zeroPageQuery : SearchQuery :=
  ⟨"hello".toList, false, some 0, some 3, none, none, true⟩

/-- An off-page query: page 4 of size 10 over zero hits. -/
def offPageQuery : SearchQuery :=
  ⟨"programming".toList, false, some 4, some 10, none, none, true⟩

/-- The all-defaults empty query (`SearchQuery::default` with `query`
empty, src/main.rs:59-71). -/
def emptyQuery : SearchQuery := ⟨[], false, none, none, none, none, true⟩

/-- A document whose highlight window for the query token `"hello"` ends
at byte 55 of `full_text = "hello xxx…xé zzz"` — inside the two-byte
`'é'` — so `generate_highlights` panics on it. -/
def panicHighlightDoc : Document :=
  ⟨"9".toList, "hello".toList,
   List.replicate 48 'x' ++ 'é' :: "zzz".toList, [], 0⟩

/-- The engine holding `panicHighlightDoc`. -/
def panicHighlightEngine : Engine :=
  addDocument uuidUnused newEngine panicHighlightDoc

/-- Query `"hello"` with highlighting on (the default), matching
`panicHighlightDoc`. -/
def panicHighlightQuery : SearchQuery :=
  ⟨"hello".toList, false, some 1, some 10, none, none, true⟩

-- ==================== Theorems ====================

set_option maxRecDepth 8000

-- ---------- General lemmas about the embedded operations ----------

theorem insertDesc_length (x : Str × ℚ) (l : List (Str × ℚ)) :
    (insertDesc x l).length = l.length + 1 := by
  induction l with
  | nil => rfl
  | cons y ys ih =>
    by_cases h : x.2 < y.2 <;> simp [insertDesc, h, ih]

/-- The stable sort is a permutation in particular in length. -/
theorem sortDesc_length (l : List (Str × ℚ)) :
    (sortDesc l).length = l.length := by
  induction l with
  | nil => rfl
  | cons x xs ih =>
    show (insertDesc x (sortDesc xs)).length = xs.length + 1
    rw [insertDesc_length, ih]

theorem lookupA_mem {β : Type} {m : List (Str × β)} {k : Str} {v : β}
    (h : lookupA m k = some v) : (k, v) ∈ m := by
  induction m with
  | nil => simp [lookupA] at h
  | cons p t ih =>
    obtain ⟨k', v'⟩ := p
    by_cases hk : k' = k
    · subst hk
      simp [lookupA] at h
      subst h
      exact List.mem_cons_self _ _
    · simp [lookupA, hk] at h
      exact List.mem_cons_of_mem _ (ih h)

/-- When every stored document projects cleanly, the result projection
loop cannot abort. -/
theorem buildResults_isSome (e : Engine) (q : SearchQuery)
    (hok : ProjectsCleanly e q) :
    ∀ l : List (Str × ℚ),
      (buildResults e q (tokenize q.query) l).isSome = true := by
  intro l
  induction l with
  | nil => rfl
  | cons p rest ih =>
    obtain ⟨docId, score⟩ := p
    unfold buildResults
    cases hdoc : lookupA e.documents docId with
    | none => exact ih
    | some doc =>
      obtain ⟨hhl, htr⟩ := hok (docId, doc) (lookupA_mem hdoc)
      have hhl' : (if q.highlight then generateHighlights doc (tokenize q.query)
          else some []).isSome = true := by
        cases hq : q.highlight with
        | false => rfl
        | true => simpa using hhl hq
      obtain ⟨highlights, hh⟩ := Option.isSome_iff_exists.mp hhl'
      obtain ⟨content, hc⟩ := Option.isSome_iff_exists.mp htr
      simp [hh, hc, ih]

/-- Claim C4 (amended): `tokenize` computes the spec's parenthetical
formulation — lowercase, RETAIN alphanumerics and whitespace dropping
all other characters, split on whitespace runs, drop every token of at
most 2 UTF-8 bytes (the measure `str::len` applies; for a multi-byte
token, Rust's byte count and its character count differ, and the code
uses bytes).  It does not compute the replace-with-space formulation,
which the counterexample separates.  Both pipelines here share the
model's character classification, so the identity is independent of how
any character is classified; it records that step (2) of the code is the
drop step, not the replace step. -/
theorem tokenize_is_drop_pipeline (s : Str) :
    tokenize s = tokenizeSpecDrop s := rfl

/-- Projecting the pagination scalars out of a completed response ignores
the projected results. -/
theorem scalar_projection_of_buildResults (e : Engine) (q : SearchQuery)
    (hok : ProjectsCleanly e q)
    (l : List (Str × ℚ)) (th pg pp tp : ℕ) :
    ((buildResults e q (tokenize q.query) l).map
        (fun results => SearchResponse.mk results th 0 pg pp tp)).map
      (fun r => (r.total_hits, r.page, r.per_page, r.total_pages)) =
      some (th, pg, pp, tp) := by
  obtain ⟨r, hr⟩ :=
    Option.isSome_iff_exists.mp (buildResults_isSome e q hok l)
  rw [hr]
  rfl

/-- Claim C7 (amended): on an engine all of whose stored documents
project cleanly under the query — content truncation and, when
highlighting is requested, the highlight byte windows all fall on
character boundaries, so no result projection can panic — two `search`
calls with the same query yield the same `total_hits`, `page`,
`per_page` and `total_pages` whatever iteration orders the two freshly
seeded `scores` hash maps produce, and identical `results` whenever
those orders coincide (the latter is definitional: `searchOut` is a
function of the order).  Identical `results` for merely permuted orders
fails on ties — the counterexample separates it. -/
theorem search_scalars_iteration_order_invariant (e : Engine)
    (q : SearchQuery) (o₁ o₂ : List (Str × ℚ)) (hperm : o₁.Perm o₂)
    (hok : ProjectsCleanly e q) :
    (searchOut e q o₁).map
        (fun r => (r.total_hits, r.page, r.per_page, r.total_pages)) =
      (searchOut e q o₂).map
        (fun r => (r.total_hits, r.page, r.per_page, r.total_pages)) := by
  simp only [searchOut]
  by_cases htok : tokenize q.query = []
  · rw [if_pos htok, if_pos htok]
  · rw [if_neg htok, if_neg htok]
    by_cases hpp : q.per_page.getD 10 = 0
    · rw [if_pos hpp, if_pos hpp]
    · rw [if_neg hpp, if_neg hpp]
      have hlen : (sortDesc o₁).length = (sortDesc o₂).length := by
        rw [sortDesc_length, sortDesc_length, hperm.length_eq]
      rw [hlen, scalar_projection_of_buildResults e q hok,
        scalar_projection_of_buildResults e q hok]

/-- Witness for C7 (amended): the two iteration orders of a two-element
tied score table report the same four scalars on the fresh engine. -/
theorem search_scalars_iteration_order_invariant_witness :
    ([(['a'], (0 : ℚ)), (['b'], 0)]).Perm [(['b'], 0), (['a'], 0)] ∧
      (searchOut newEngine tieQuery [(['a'], (0 : ℚ)), (['b'], 0)]).map
          (fun r => (r.total_hits, r.page, r.per_page, r.total_pages)) =
        (searchOut newEngine tieQuery [(['b'], (0 : ℚ)), (['a'], 0)]).map
          (fun r => (r.total_hits, r.page, r.per_page, r.total_pages)) :=
  ⟨List.Perm.swap _ _ _,
    search_scalars_iteration_order_invariant newEngine tieQuery _ _
      (List.Perm.swap _ _ _) (by simp [ProjectsCleanly, newEngine])⟩

/-- The two tied documents receive one common accumulated score. -/
theorem tie_scores_shape : ∃ s : ℚ,
    filteredScores flog0 tieEngine tieQuery = [(['a'], s), (['b'], s)] :=
  ⟨_, rfl⟩

/-- Running the paginated projection on the canonical iteration order of
the tied scores returns document `a` before document `b`: the stable sort
keeps tied entries in iteration order. -/
theorem tie_run_ab (s : ℚ) :
    (searchOut tieEngine tieQuery [(['a'], s), (['b'], s)]).map
      (fun r => r.results.map SearchResult.id) = some [['a'], ['b']] := by
  have hsort : sortDesc [(['a'], s), (['b'], s)] = [(['a'], s), (['b'], s)] := by
    simp [sortDesc, insertDesc, lt_irrefl]
  have hda : lookupA tieEngine.documents ['a'] = some tieDocA := rfl
  have hdb : lookupA tieEngine.documents ['b'] = some tieDocB := rfl
  have hta : truncateContent tieDocA.content 200 = some tieDocA.content := rfl
  have htb : truncateContent tieDocB.content 200 = some tieDocB.content := rfl
  have hida : tieDocA.id = ['a'] := rfl
  have hidb : tieDocB.id = ['b'] := rfl
  simp only [searchOut]
  rw [if_neg (show ¬ tokenize tieQuery.query = [] by decide)]
  rw [if_neg (show ¬ (tieQuery.per_page.getD 10) = 0 by decide)]
  rw [hsort]
  norm_num [W64, tieQuery]
  simp [buildResults, hda, hdb, hta, htb, hida, hidb]

/-- As `tie_run_ab`, for the swapped iteration order: `b` comes first. -/
theorem tie_run_ba (s : ℚ) :
    (searchOut tieEngine tieQuery [(['b'], s), (['a'], s)]).map
      (fun r => r.results.map SearchResult.id) = some [['b'], ['a']] := by
  have hsort : sortDesc [(['b'], s), (['a'], s)] = [(['b'], s), (['a'], s)] := by
    simp [sortDesc, insertDesc, lt_irrefl]
  have hda : lookupA tieEngine.documents ['a'] = some tieDocA := rfl
  have hdb : lookupA tieEngine.documents ['b'] = some tieDocB := rfl
  have hta : truncateContent tieDocA.content 200 = some tieDocA.content := rfl
  have htb : truncateContent tieDocB.content 200 = some tieDocB.content := rfl
  have hida : tieDocA.id = ['a'] := rfl
  have hidb : tieDocB.id = ['b'] := rfl
  simp only [searchOut]
  rw [if_neg (show ¬ tokenize tieQuery.query = [] by decide)]
  rw [if_neg (show ¬ (tieQuery.per_page.getD 10) = 0 by decide)]
  rw [hsort]
  norm_num [W64, tieQuery]
  simp [buildResults, hda, hdb, hta, htb, hida, hidb]

/-- Counterexample for C7: on the engine holding two identical documents
under ids `a` and `b`, both iteration orders of the post-filter score
table are permutations of one another (as any two runs of the random-state
hash map are), yet one run of the pipeline returns `[a, b]` and the other
`[b, a]`: the `results` sequence of `search` is not a function of the
query and the engine alone. -/
theorem search_results_depend_on_tie_iteration_order :
    (filteredScores flog0 tieEngine tieQuery).reverse.Perm
        (filteredScores flog0 tieEngine tieQuery) ∧
      (searchOut tieEngine tieQuery
          (filteredScores flog0 tieEngine tieQuery)).map
        (fun r => r.results.map SearchResult.id) = some [['a'], ['b']] ∧
      (searchOut tieEngine tieQuery
          (filteredScores flog0 tieEngine tieQuery).reverse).map
        (fun r => r.results.map SearchResult.id) = some [['b'], ['a']] := by
  obtain ⟨s, hs⟩ := tie_scores_shape
  refine ⟨List.reverse_perm _, ?_, ?_⟩
  · rw [hs]
    exact tie_run_ab s
  · rw [hs, show ([(['a'], s), (['b'], s)]).reverse = [(['b'], s), (['a'], s)]
      by simp]
    exact tie_run_ba s

/-- Claim C9: a query whose text tokenizes to the empty token list returns
`Ok` with no results, `total_hits = 0`, `total_pages = 0`, and `page` and
`per_page` taken from the request with defaults 1 and 10. -/
theorem empty_token_list_empty_response (flog : ℚ → ℚ) (e : Engine)
    (q : SearchQuery) (h : tokenize q.query = []) :
    search flog e q =
      some ⟨[], 0, 0, q.page.getD 1, q.per_page.getD 10, 0⟩ := by
  simp [search, searchOut, h]

/-- Witness for C9: the empty query on a non-empty corpus (the engine
holding `fuzzyDoc`). -/
theorem empty_token_list_empty_response_witness :
    tokenize emptyQuery.query = [] ∧
      search flog0 fuzzyEngine emptyQuery = some ⟨[], 0, 0, 1, 10, 0⟩ :=
  ⟨rfl, empty_token_list_empty_response flog0 fuzzyEngine emptyQuery rfl⟩

/-- Claim C1: the spec's fuzzy scenario — and the source's own
`test_fuzzy_search` — expect `total_hits == 1`, but the scorer looks the
term frequency up under the query token `"programing"`, which no document
row contains (the row holds `"programming"`), so no score is ever
accumulated and the search reports zero hits.  The logarithm stand-in is
universally quantified: the outcome does not depend on any score value. -/
theorem fuzzy_scenario_reports_zero_hits (flog : ℚ → ℚ) :
    search flog fuzzyEngine fuzzyQuery = some ⟨[], 0, 0, 1, 10, 0⟩ := by
  have h : filteredScores flog fuzzyEngine fuzzyQuery = [] := rfl
  show searchOut fuzzyEngine fuzzyQuery (filteredScores flog fuzzyEngine fuzzyQuery) = _
  rw [h]
  rfl

/-- Claim C2: `add_document` of a fresh id followed by `remove_document`
of that id restores the document table, the inverted index, the
term-frequency table and the corpus cardinality, but LEAVES the
`document_lengths` entry behind (`remove_document` never touches it), so
the engine is not identical to the state before the add. -/
theorem add_remove_leaves_length_residue :
    addRemoveEngine.documents = [] ∧
      addRemoveEngine.inverted_index = [] ∧
      addRemoveEngine.word_frequencies = [] ∧
      addRemoveEngine.total_documents = 0 ∧
      addRemoveEngine.document_lengths = [("1".toList, 2)] :=
  ⟨rfl, rfl, rfl, rfl, rfl⟩

/-- Claim C3: after `add_document({id:"1",...})` then
`remove_document("1")` on a fresh engine, the id `"1"` is absent from the
document table and from the term-frequency table yet still present as a
key of the per-document length table: the three-way presence invariant
does not survive `remove_document`. -/
theorem remove_breaks_presence_invariant :
    containsA addRemoveEngine.documents "1".toList = false ∧
      containsA addRemoveEngine.word_frequencies "1".toList = false ∧
      containsA addRemoveEngine.document_lengths "1".toList = true :=
  ⟨rfl, rfl, rfl⟩

/-- Counterexample for C4: on `"ab,cd"` the code tokenizes to `["abcd"]`
(the comma is dropped, fusing the fragments) while the claim's primary
algorithm — replace the comma by a space — yields no token at all (both
fragments have length 2): the two step-(2) formulations are not
equivalent. -/
theorem tokenize_replace_formulation_disagrees :
    tokenize "ab,cd".toList = ["abcd".toList] ∧
      tokenizeSpecReplace "ab,cd".toList = [] := ⟨rfl, rfl⟩

/-- A character encodes to at least one byte. -/
theorem utf8Len_pos (c : Char) : 1 ≤ utf8Len c := by
  simp only [utf8Len]
  split_ifs <;> norm_num

/-- A non-empty string occupies at least one byte. -/
theorem byteLen_pos_of_ne_nil (s : Str) (h : s ≠ []) : 1 ≤ byteLen s := by
  cases s with
  | nil => exact absurd rfl h
  | cons c t =>
    have := utf8Len_pos c
    simp [byteLen]
    omega

/-- Byte slicing at the exact byte length of a prefix recovers the
prefix. -/
theorem takeBytes_exact (p s : Str) :
    takeBytes (byteLen p) (p ++ s) = some p := by
  induction p with
  | nil =>
    show takeBytes (byteLen []) s = some []
    rw [show byteLen [] = 0 from rfl]
    simp [takeBytes]
  | cons c t ih =>
    have hpos := utf8Len_pos c
    have hb : byteLen (c :: t) = utf8Len c + byteLen t := by simp [byteLen]
    rw [List.cons_append, hb]
    cases hq : utf8Len c + byteLen t with
    | zero => omega
    | succ b =>
      simp only [takeBytes]
      rw [if_pos (show utf8Len c ≤ b + 1 by omega)]
      rw [show b + 1 - utf8Len c = byteLen t by omega, ih]
      rfl

/-- Claim C8 (amended): EVERY content of at most 200 bytes is returned
whole; a longer content whose byte 200 falls on a character boundary is
returned as its 200-byte prefix with the literal `...` appended; when
byte 200 splits a multi-byte character the slice panics instead (see the
counterexample), so the truncation is not total over Unicode contents.
`c` ranges over the short contents, `p ++ s` over the long cleanly
splitting ones. -/
theorem truncate_boundary_cases (c p s : Str) (hc : byteLen c ≤ 200)
    (hp : byteLen p = 200) (hs : s ≠ []) :
    truncateContent c 200 = some c ∧
      truncateContent (p ++ s) 200 = some (p ++ ['.', '.', '.']) := by
  constructor
  · simp [truncateContent, hc]
  · have hgt : ¬ byteLen (p ++ s) ≤ 200 := by
      have h1 : byteLen (p ++ s) = byteLen p + byteLen s := by simp [byteLen]
      have := byteLen_pos_of_ne_nil s hs
      omega
    simp only [truncateContent, if_neg hgt]
    rw [show (200 : ℕ) = byteLen p from hp.symm, takeBytes_exact]
    rfl

/-- Witness for C8 (amended): `"hello"` (5 bytes) is returned whole; 200
`'a'`s followed by `'b'` come back as the 200-byte prefix plus `...`. -/
theorem truncate_boundary_cases_witness :
    byteLen "hello".toList ≤ 200 ∧
      byteLen (List.replicate 200 'a') = 200 ∧ (['b'] : Str) ≠ [] ∧
      truncateContent "hello".toList 200 = some "hello".toList ∧
      truncateContent (List.replicate 200 'a' ++ ['b']) 200 =
        some (List.replicate 200 'a' ++ ['.', '.', '.']) :=
  ⟨by decide, by decide, by decide,
    (truncate_boundary_cases "hello".toList (List.replicate 200 'a') ['b']
      (by decide) (by decide) (by decide)).1,
    (truncate_boundary_cases "hello".toList (List.replicate 200 'a') ['b']
      (by decide) (by decide) (by decide)).2⟩

/-- Counterexample for C8: a 199-byte ASCII prefix followed by `'é'`
(2 bytes in UTF-8) is 201 bytes long, so truncation slices at byte 200 —
inside the `'é'` — and the slice panics: truncation is not total. -/
theorem truncate_splits_multibyte_char :
    truncateContent (List.replicate 199 'a' ++ ['é']) 200 = none := rfl

/-- Claim C5 (amended): when the token list is non-empty,
`per_page ≥ 1`, `page ≥ 1`, the slice start `(page − 1) · per_page` is at
least the number of post-filter scored docs, and the pagination products
and sums stay below `2^64` (no `usize` wrap), `search` returns normally
with an empty result slice while `total_hits` and
`total_pages = ⌈total_hits / per_page⌉` are correctly reported.  The
unamended claim also admits `per_page = 0`, where the `total_pages`
division aborts instead (see the counterexample).  `ord` ranges over the
iteration orders the `scores` hash map may yield, so the result covers
every run; `search` itself is the canonical instance. -/
theorem search_off_page_empty_slice (flog : ℚ → ℚ) (e : Engine)
    (q : SearchQuery) (ord : List (Str × ℚ))
    (hord : ord.Perm (filteredScores flog e q))
    (htok : tokenize q.query ≠ [])
    (hpg : 1 ≤ q.page.getD 1) (hpp : 1 ≤ q.per_page.getD 10)
    (hstart : (filteredScores flog e q).length ≤
      (q.page.getD 1 - 1) * q.per_page.getD 10)
    (hw1 : (q.page.getD 1 - 1) * q.per_page.getD 10 < W64)
    (hw2 : (filteredScores flog e q).length + q.per_page.getD 10 ≤ W64) :
    searchOut e q ord =
      some ⟨[], (filteredScores flog e q).length, 0, q.page.getD 1,
        q.per_page.getD 10,
        (filteredScores flog e q).length ⌈/⌉ q.per_page.getD 10⟩ := by
  have hW : W64 = 18446744073709551616 := rfl
  simp only [searchOut]
  rw [if_neg htok]
  rw [if_neg (show ¬ q.per_page.getD 10 = 0 by omega)]
  have hlen : (sortDesc ord).length = (filteredScores flog e q).length := by
    rw [sortDesc_length, hord.length_eq]
  have hpgle : q.page.getD 1 - 1 < W64 :=
    lt_of_le_of_lt (Nat.le_mul_of_pos_right _ (by omega)) hw1
  have hstartval : ((q.page.getD 1 + (W64 - 1)) % W64) *
      q.per_page.getD 10 % W64 = (q.page.getD 1 - 1) * q.per_page.getD 10 := by
    have h1 : q.page.getD 1 + (W64 - 1) = (q.page.getD 1 - 1) + W64 := by
      omega
    rw [h1, Nat.add_mod_right, Nat.mod_eq_of_lt hpgle, Nat.mod_eq_of_lt hw1]
  rw [hstartval]
  have hdrop : (sortDesc ord).drop
      ((q.page.getD 1 - 1) * q.per_page.getD 10) = [] :=
    List.drop_eq_nil_of_le (by rw [hlen]; exact hstart)
  rw [hdrop, List.take_nil]
  simp only [buildResults]
  rw [hlen]
  have h3 : (filteredScores flog e q).length + q.per_page.getD 10 +
      (W64 - 1) =
      ((filteredScores flog e q).length + q.per_page.getD 10 - 1) + W64 := by
    omega
  rw [h3, Nat.add_mod_right,
    Nat.mod_eq_of_lt (show (filteredScores flog e q).length +
      q.per_page.getD 10 - 1 < W64 by omega),
    Nat.ceilDiv_eq_add_pred_div]
  rfl

/-- Witness for C5 (amended): page 4 of size 10 over an engine with no
hits for `"programming"` — the slice is empty, `total_hits = 0`,
`total_pages = 0`. -/
theorem search_off_page_empty_slice_witness :
    tokenize offPageQuery.query ≠ [] ∧
      search flog0 newEngine offPageQuery = some ⟨[], 0, 0, 4, 10, 0⟩ := by
  have hfs : filteredScores flog0 newEngine offPageQuery = [] := rfl
  refine ⟨by decide, ?_⟩
  have h := search_off_page_empty_slice flog0 newEngine offPageQuery
    (filteredScores flog0 newEngine offPageQuery) (List.Perm.refl _)
    (by decide) (by decide) (by decide)
    (by rw [hfs]; decide) (by decide) (by rw [hfs]; decide)
  rw [hfs] at h
  show searchOut newEngine offPageQuery
    (filteredScores flog0 newEngine offPageQuery) = _
  rw [hfs]
  simpa using h

/-- Counterexample for C5: `per_page = Some(0)` with a non-empty token
list and `start = 0 ≥ 0 = total_hits` reaches the `total_pages` division
by zero, which aborts the call instead of returning an empty slice. -/
theorem off_page_zero_per_page_aborts :
    search flog0 newEngine zeroPerPageQuery = none := rfl

/-- Claim C10 (amended): `search` completes for every query whose
effective `per_page` is non-zero — `page = Some(0)` included, since the
`page − 1` underflow wraps — on any engine whose stored documents
project cleanly under the query (content truncation and, when
highlighting is requested, the highlight byte windows all fall on
character boundaries; either slice panics on a violating document, so
some such proviso is forced).  With `per_page = Some(0)` and a non-empty
token list it instead aborts on the `total_pages` division by zero (see
the counterexample).  The theorem holds for every iteration order `ord`
of the `scores` hash map, hence for every run; `search` at any `flog` is
the canonical instance. -/
theorem search_completes_for_nonzero_per_page (e : Engine)
    (q : SearchQuery) (ord : List (Str × ℚ))
    (hpp : ¬ q.per_page.getD 10 = 0)
    (hok : ProjectsCleanly e q) :
    (searchOut e q ord).isSome = true := by
  simp only [searchOut]
  by_cases htok : tokenize q.query = []
  · rw [if_pos htok]
    rfl
  · rw [if_neg htok, if_neg hpp, Option.isSome_map']
    exact buildResults_isSome e q hok _

/-- The clean-projection proviso of C7 and C10 is forced: with
highlighting on (its default), a stored document whose 50-byte highlight
window ends inside a multi-byte character makes the search panic even
though `per_page` is non-zero and the 53-byte content truncates
trivially. -/
theorem highlight_window_can_panic :
    generateHighlights panicHighlightDoc ["hello".toList] = none ∧
      search flog0 panicHighlightEngine panicHighlightQuery = none :=
  ⟨rfl, rfl⟩

/-- Witness for C10 (amended): `page = Some(0)`, `per_page = Some(3)` on
the fresh engine completes. -/
theorem search_completes_for_nonzero_per_page_witness :
    ¬ zeroPageQuery.per_page.getD 10 = 0 ∧
      (search flog0 newEngine zeroPageQuery).isSome = true :=
  ⟨by decide,
    search_completes_for_nonzero_per_page newEngine zeroPageQuery
      (filteredScores flog0 newEngine zeroPageQuery)
      (by decide) (by simp [ProjectsCleanly, newEngine])⟩

/-- Counterexample for C10: with `page = Some(0)` and `per_page = Some(0)`
and a non-empty token list, `search` aborts on the `total_pages` division
by zero; it completes with neither `Ok` nor `Err`. -/
theorem zero_per_page_division_aborts :
    search flog0 newEngine zeroZeroQuery = none := rfl

-- ---------- Lemmas for add_document idempotence ----------

theorem insertA_insertA {β : Type} (m : List (Str × β)) (k : Str) (v : β) :
    insertA (insertA m k v) k v = insertA m k v := by
  induction m with
  | nil => simp [insertA]
  | cons p t ih =>
    obtain ⟨k', v'⟩ := p
    by_cases h : k' = k
    · simp [insertA, h]
    · simp [insertA, h, ih]

theorem containsA_insertA {β : Type} (m : List (Str × β)) (k : Str) (v : β) :
    containsA (insertA m k v) k = true := by
  induction m with
  | nil => simp [insertA, containsA, lookupA]
  | cons p t ih =>
    obtain ⟨k', v'⟩ := p
    by_cases h : k' = k
    · simp [insertA, containsA, lookupA, h]
    · simpa [insertA, containsA, lookupA, h] using ih

theorem removeA_insertA {β : Type} (m : List (Str × β)) (k : Str) (v : β) :
    removeA (insertA m k v) k = removeA m k := by
  induction m with
  | nil => simp [insertA, removeA]
  | cons p t ih =>
    obtain ⟨k', v'⟩ := p
    by_cases h : k' = k
    · simp [insertA, removeA, h]
    · have ih' := ih
      simp only [removeA] at ih' ⊢
      simp only [insertA, if_neg h, List.filter_cons]
      rw [ih']

theorem removeA_removeA {β : Type} (m : List (Str × β)) (k : Str) :
    removeA (removeA m k) k = removeA m k := by
  simp [removeA, List.filter_filter]

/-- Purging an id no posting list holds is a no-op. -/
theorem purgeIndex_no_id (ix : List (Str × List Str)) (id : Str)
    (h : ∀ p ∈ ix, id ∉ p.2) : purgeIndex ix id = ix := by
  induction ix with
  | nil => rfl
  | cons p t ih =>
    have hp := h p (List.mem_cons_self _ _)
    simp only [purgeIndex, List.filterMap_cons, if_neg hp]
    have := ih (fun q hq => h q (List.mem_cons_of_mem _ hq))
    simp only [purgeIndex] at this
    rw [this]

/-- After a purge, no posting list holds the purged id. -/
theorem purgeIndex_id_free (ix : List (Str × List Str)) (id : Str) :
    ∀ p ∈ purgeIndex ix id, id ∉ p.2 := by
  induction ix with
  | nil => simp [purgeIndex]
  | cons q t ih =>
    obtain ⟨w, l⟩ := q
    intro p hp
    by_cases hm : id ∈ l
    · simp only [purgeIndex, List.filterMap_cons, if_pos hm] at hp
      by_cases hf : l.filter (fun x => decide (x ≠ id)) = []
      · rw [hf] at hp
        simp only [if_pos rfl] at hp
        exact ih p hp
      · simp only [if_neg hf] at hp
        rcases List.mem_cons.mp hp with hp | hp
        · subst hp
          simp
        · exact ih p hp
    · simp only [purgeIndex, List.filterMap_cons, if_neg hm] at hp
      rcases List.mem_cons.mp hp with hp | hp
      · subst hp
        exact hm
      · exact ih p hp

theorem purgeIndex_purgeIndex (ix : List (Str × List Str)) (id : Str) :
    purgeIndex (purgeIndex ix id) id = purgeIndex ix id :=
  purgeIndex_no_id _ _ (purgeIndex_id_free ix id)

/-- A purge never leaves an empty posting list behind when none was there
to begin with. -/
theorem purgeIndex_ne_nil (ix : List (Str × List Str)) (id : Str)
    (h : ∀ p ∈ ix, p.2 ≠ []) : ∀ p ∈ purgeIndex ix id, p.2 ≠ [] := by
  induction ix with
  | nil => simp [purgeIndex]
  | cons q t ih =>
    obtain ⟨w, l⟩ := q
    have hl : l ≠ [] := h (w, l) (List.mem_cons_self _ _)
    have ht := ih (fun p hp => h p (List.mem_cons_of_mem _ hp))
    intro p hp
    by_cases hm : id ∈ l
    · simp only [purgeIndex, List.filterMap_cons, if_pos hm] at hp
      by_cases hf : l.filter (fun x => decide (x ≠ id)) = []
      · rw [hf] at hp
        simp only [if_pos rfl] at hp
        exact ht p hp
      · simp only [if_neg hf] at hp
        rcases List.mem_cons.mp hp with hp | hp
        · subst hp
          exact hf
        · exact ht p hp
    · simp only [purgeIndex, List.filterMap_cons, if_neg hm] at hp
      rcases List.mem_cons.mp hp with hp | hp
      · subst hp
        exact hl
      · exact ht p hp

/-- Appending a posting never creates an empty list. -/
theorem pushPosting_ne_nil (ix : List (Str × List Str)) (t id : Str)
    (h : ∀ p ∈ ix, p.2 ≠ []) : ∀ p ∈ pushPosting ix t id, p.2 ≠ [] := by
  induction ix with
  | nil =>
    intro p hp
    simp only [pushPosting] at hp
    rcases List.mem_cons.mp hp with hp | hp
    · subst hp; simp
    · simp at hp
  | cons q tl ih =>
    obtain ⟨k, l⟩ := q
    have hl : l ≠ [] := h (k, l) (List.mem_cons_self _ _)
    have htl := ih (fun p hp => h p (List.mem_cons_of_mem _ hp))
    intro p hp
    by_cases hk : k = t
    · simp only [pushPosting, if_pos hk] at hp
      rcases List.mem_cons.mp hp with hp | hp
      · subst hp; simp
      · exact h p (List.mem_cons_of_mem _ hp)
    · simp only [pushPosting, if_neg hk] at hp
      rcases List.mem_cons.mp hp with hp | hp
      · subst hp; exact hl
      · exact htl p hp

/-- Purging immediately after pushing a posting for the same id gives the
purge of the original index, provided no posting list is empty. -/
theorem purgeIndex_pushPosting (ix : List (Str × List Str)) (t id : Str)
    (h : ∀ p ∈ ix, p.2 ≠ []) :
    purgeIndex (pushPosting ix t id) id = purgeIndex ix id := by
  induction ix with
  | nil =>
    simp [pushPosting, purgeIndex, List.filterMap_cons]
  | cons q tl ih =>
    obtain ⟨k, l⟩ := q
    have hl : l ≠ [] := h (k, l) (List.mem_cons_self _ _)
    have htl := ih (fun p hp => h p (List.mem_cons_of_mem _ hp))
    by_cases hk : k = t
    · subst hk
      rw [show pushPosting ((k, l) :: tl) k id = (k, l ++ [id]) :: tl by
        simp [pushPosting]]
      have hm' : id ∈ l ++ [id] := List.mem_append_right _ (by simp)
      have happ : (l ++ [id]).filter (fun x => decide (x ≠ id)) =
          l.filter (fun x => decide (x ≠ id)) := by
        rw [List.filter_append]
        simp
      by_cases hm : id ∈ l
      · simp only [purgeIndex, List.filterMap_cons, if_pos hm, if_pos hm', happ]
      · have hfl : l.filter (fun x => decide (x ≠ id)) = l :=
          List.filter_eq_self.mpr (fun x hx => by
            simp
            intro hxid
            exact hm (hxid ▸ hx))
        simp only [purgeIndex, List.filterMap_cons, if_pos hm', if_neg hm, happ,
          hfl, if_neg hl]
    · rw [show pushPosting ((k, l) :: tl) t id = (k, l) :: pushPosting tl t id by
        simp [pushPosting, hk]]
      simp only [purgeIndex, List.filterMap_cons]
      simp only [purgeIndex] at htl
      rw [htl]

/-- Iterating `purgeIndex_pushPosting` over the indexing loop: purging an
id right after the loop pushed all its postings purges the pre-loop
index. -/
theorem purgeIndex_pushLoop (tokens : List Str) (id : Str) :
    ∀ ix : List (Str × List Str), (∀ p ∈ ix, p.2 ≠ []) →
      purgeIndex (tokens.foldl (fun ix t => pushPosting ix t id) ix) id =
        purgeIndex ix id := by
  induction tokens with
  | nil => intro ix _; rfl
  | cons t ts ih =>
    intro ix h
    rw [List.foldl_cons, ih (pushPosting ix t id) (pushPosting_ne_nil ix t id h),
      purgeIndex_pushPosting ix t id h]

/-- `add_document` on a non-empty id, with the let-chain of
src/main.rs:96-149 written out. -/
theorem addDocument_nonempty (u : Str) (e : Engine) (d : Document)
    (hid : d.id ≠ []) :
    addDocument u e d =
      ⟨insertA e.documents d.id d,
        (tokenize (d.title ++ ' ' :: d.content)).foldl
          (fun ix t => pushPosting ix t d.id)
          (purgeIndex e.inverted_index d.id),
        insertA (removeA e.word_frequencies d.id) d.id
          ((wordCounts (tokenize (d.title ++ ' ' :: d.content))).map
            (fun p => (p.1,
              (p.2 : ℚ) /
                (((tokenize (d.title ++ ' ' :: d.content)).length : ℕ) : ℚ)))),
        insertA e.document_lengths d.id
          (tokenize (d.title ++ ' ' :: d.content)).length,
        if ¬ containsA e.documents d.id = true
          then (e.total_documents + 1) % W64 else e.total_documents⟩ := by
  simp [addDocument, removeDocumentFromIndex, if_neg hid]

/-- Claim C6 (amended): `add_document` is idempotent on identical input
whenever the document carries a NON-EMPTY id (an empty id draws a fresh
uuid per call, which the counterexample separates): on any engine whose
posting lists are non-empty — every reachable engine — adding the same
document twice leaves exactly the state one add leaves.  `u` and `v` are
the uuid draws of the two calls; neither is consumed. -/
theorem add_document_idempotent_nonempty_id (u v : Str) (e : Engine)
    (d : Document) (hid : d.id ≠ [])
    (hwf : ∀ p ∈ e.inverted_index, p.2 ≠ []) :
    addDocument v (addDocument u e d) d = addDocument u e d := by
  rw [addDocument_nonempty u e d hid]
  rw [addDocument_nonempty v _ d hid]
  have hpurged : ∀ p ∈ purgeIndex e.inverted_index d.id, p.2 ≠ [] :=
    purgeIndex_ne_nil e.inverted_index d.id hwf
  refine Engine.mk.injEq .. ▸ ⟨?_, ?_, ?_, ?_, ?_⟩
  · exact insertA_insertA e.documents d.id d
  · rw [purgeIndex_pushLoop _ d.id _ hpurged, purgeIndex_purgeIndex]
  · rw [removeA_insertA, removeA_removeA]
  · exact insertA_insertA e.document_lengths d.id _
  · rw [if_neg]
    simp [containsA_insertA]

/-- Witness for C6 (amended): two adds of `helloDoc` (id `"1"`) on the
fresh engine equal one add. -/
theorem add_document_idempotent_nonempty_id_witness :
    helloDoc.id ≠ [] ∧
      addDocument uuidB (addDocument uuidA newEngine helloDoc) helloDoc =
        addDocument uuidA newEngine helloDoc :=
  ⟨by decide,
    add_document_idempotent_nonempty_id uuidA uuidB newEngine helloDoc
      (by decide) (by simp [newEngine])⟩

/-- Counterexample for C6: adding a document whose id is empty twice draws
two distinct uuids, so the second call inserts a second document; the
corpus cardinality — externally visible through `get_stats` — is 2 after
two calls and 1 after one. -/
theorem add_twice_empty_id_not_idempotent :
    (addDocument uuidB (addDocument uuidA newEngine emptyIdDoc)
        emptyIdDoc).total_documents = 2 ∧
      (addDocument uuidA newEngine emptyIdDoc).total_documents = 1 :=
  ⟨rfl, rfl⟩

end FerrumSearch
